import Mathlib

/-!
Shallow embedding of `src/ngts_explorer.py` (NGTS explorer tool).

Sequences of samples are modelled as `List ℝ` (numpy 1-d arrays in exact
real arithmetic).  Machine floats are modelled by exact reals; numpy's
`x % 1` on floats is `Int.fract`; `np.log10` is `Real.logb 10`.
Division by zero follows Lean's `x / 0 = 0` convention, which only matters
in degenerate situations the claims exclude or that are noted in place.
-/

/-- The `FileData` named tuple of the source: four parallel sequences
(time in MJD, flux, flux uncertainty, airmass). -/
structure FileData where
  mjd : List ℝ
  flux : List ℝ
  fluxerr : List ℝ
  airmass : List ℝ

/-- The `PowerSeries` named tuple of the source (named as in the spec, since Mathlib already has a `PowerSeries`): candidate periods with
their Lomb-Scargle powers. -/
structure PowerSpectrum where
  period : List ℝ
  power : List ℝ

/-- Weighted dot product of two parallel lists, `Σ u_i * v_i`
(truncating at the shorter list, as `zipWith` does). -/
def dot (u v : List ℝ) : ℝ :=
  (List.zipWith (fun a b => a * b) u v).sum

/-- Denominator of the 2x2 normal-equation system for a weighted
degree-1 fit: `D = (Σ W)(Σ W x²) - (Σ W x)²`. -/
def wlsDen (W x : List ℝ) : ℝ :=
  W.sum * dot (List.zipWith (fun a b => a * b) W x) x - (dot W x) ^ 2

/-- Exact-arithmetic solution of the weighted least-squares line
`y ≈ slope * x + intercept` minimising `Σ W_i (y_i - slope*x_i - intercept)²`:
the unique solution of the weighted normal equations when `wlsDen W x ≠ 0`
(Lean's junk value `(0, 0)` otherwise, where numpy would be singular). -/
noncomputable def wlsLine (W x y : List ℝ) : ℝ × ℝ :=
  let S := W.sum
  let Sx := dot W x
  let Sy := dot W y
  let Wx := List.zipWith (fun a b => a * b) W x
  let Sxx := dot Wx x
  let Sxy := dot Wx y
  let D := S * Sxx - Sx ^ 2
  ((S * Sxy - Sx * Sy) / D, (Sxx * Sy - Sx * Sxy) / D)

/-- Exact semantics of `np.polyfit(x, y, 1, w=w)`: numpy's `w` multiplies
the unsquared residual (`‖diag(w) (V c - y)‖²` is minimised), so the
effective least-squares weight of point `i` is `w_i ^ 2`. -/
noncomputable def polyfit1 (x y w : List ℝ) : ℝ × ℝ :=
  wlsLine (w.map (fun t => t ^ 2)) x y

/-- The magnitude-scale uncertainty computed in the source:
`imag_err = 1.08 * fluxerr / flux`, element-wise. -/
noncomputable def imag_err_of (flux fluxerr : List ℝ) : List ℝ :=
  List.zipWith (fun e f => 1.08 * e / f) fluxerr flux

/-- The instrumental magnitude computed in the source:
`imag = -2.5 * np.log10(flux)`, element-wise. -/
noncomputable def imag_of (flux : List ℝ) : List ℝ :=
  flux.map (fun f => -2.5 * Real.logb 10 f)

/-- Source `correct_for_airmass`: convert to magnitudes, fit a degree-1
polynomial of magnitude against airmass with `np.polyfit(..., w=1/imag_err²)`,
and return `imag - fit(airmass)`. -/
noncomputable def correct_for_airmass (flux fluxerr airmass : List ℝ) : List ℝ :=
  let imag_err := imag_err_of flux fluxerr
  let imag := imag_of flux
  let fit := polyfit1 airmass imag (imag_err.map (fun s => 1 / s ^ 2))
  List.zipWith (fun m x => m - (fit.1 * x + fit.2)) imag airmass

/-- Source `detrend`: replace flux by the airmass-corrected magnitudes and
fluxerr by the magnitude-scale uncertainty; mjd and airmass pass through. -/
noncomputable def detrend (d : FileData) : FileData :=
  ⟨d.mjd,
   correct_for_airmass d.flux d.fluxerr d.airmass,
   imag_err_of d.flux d.fluxerr,
   d.airmass⟩

/-- Modelled from the spec: the fit step as the spec words it, namely a
weighted least-squares line of magnitude against airmass whose per-point
weight (multiplying the squared residual) is `1 / mag_err²`.  Kept for
comparison with the source semantics `correct_for_airmass`. -/
noncomputable def correct_for_airmass_specWeights (flux fluxerr airmass : List ℝ) : List ℝ :=
  let imag_err := imag_err_of flux fluxerr
  let imag := imag_of flux
  let fit := wlsLine (imag_err.map (fun s => 1 / s ^ 2)) airmass imag
  List.zipWith (fun m x => m - (fit.1 * x + fit.2)) imag airmass

/-- Exact semantics of `np.linspace(a, b, n)`: `n` points
`a + i * (b - a)/(n - 1)`; for `n = 1` the step divides by zero and Lean's
convention gives the single point `a`, matching numpy. -/
noncomputable def linspace (a b : ℝ) (n : ℕ) : List ℝ :=
  (List.range n).map (fun i : ℕ => a + (i : ℝ) * ((b - a) / ((n : ℝ) - 1)))

/-- Exact semantics of `np.median`: middle element of the sorted data for
odd length, mean of the two middle elements for even length. -/
noncomputable def npMedian (l : List ℝ) : ℝ :=
  let s := l.mergeSort (fun a b => decide (a ≤ b))
  if l.length % 2 = 1 then s.getD (l.length / 2) 0
  else (s.getD (l.length / 2 - 1) 0 + s.getD (l.length / 2) 0) / 2

/-- Exact semantics of numpy `.max()` on a nonempty array (junk value `0`
on the empty list, which numpy rejects). -/
noncomputable def npMax : List ℝ → ℝ
  | [] => 0
  | a :: l => l.foldl max a

/-- Two-argument arctangent as used by scipy (`atan2(y, x)`), via the
complex argument. -/
noncomputable def atan2 (y x : ℝ) : ℝ := Complex.arg ⟨x, y⟩

/-- One frequency bin of `scipy.signal.lombscargle` (the Townsend
formulation with the tau phase shift), in exact real arithmetic. -/
noncomputable def lombPower (t y : List ℝ) (omega : ℝ) : ℝ :=
  let xc := (List.zipWith (fun yj tj => yj * Real.cos (omega * tj)) y t).sum
  let xs := (List.zipWith (fun yj tj => yj * Real.sin (omega * tj)) y t).sum
  let cc := (t.map (fun tj => Real.cos (omega * tj) ^ 2)).sum
  let ss := (t.map (fun tj => Real.sin (omega * tj) ^ 2)).sum
  let cs := (t.map (fun tj => Real.cos (omega * tj) * Real.sin (omega * tj))).sum
  let tauAngle := atan2 (2 * cs) (cc - ss) / 2
  let cTau := Real.cos tauAngle
  let sTau := Real.sin tauAngle
  0.5 * ((cTau * xc + sTau * xs) ^ 2 /
            (cTau ^ 2 * cc + 2 * cTau * sTau * cs + sTau ^ 2 * ss) +
         (cTau * xs - sTau * xc) ^ 2 /
            (cTau ^ 2 * ss - 2 * cTau * sTau * cs + sTau ^ 2 * cc))

/-- Exact semantics of `scipy.signal.lombscargle(t, y, freqs)`: the power
at each requested angular frequency, element-wise over `freqs`. -/
noncomputable def lombscargle (t y freqs : List ℝ) : List ℝ :=
  freqs.map (lombPower t y)

open Classical in
/-- Source `compute_power_series`: linspace the candidate periods, assert
they are all positive (`none` models the `AssertionError`), convert to
angular frequencies `2π/period`, median-centre the flux and return the
periods paired with their Lomb-Scargle powers. -/
noncomputable def compute_power_series (d : FileData) (min_period max_period : ℝ)
    (n : ℕ) : Option PowerSpectrum :=
  let periods := linspace min_period max_period n
  if ∀ p ∈ periods, 0 < p then
    some ⟨periods,
          lombscargle d.mjd (d.flux.map (fun f => f - npMedian d.flux))
            (periods.map (fun p => 2 * Real.pi / p))⟩
  else none

open Classical in
/-- Source `PowerSpectrum.peak_period`: `period[power == power.max()][0]` —
mask the periods by the indices attaining the maximum power and take the
first (junk value `0` if the mask is empty, which cannot happen for a
nonempty power array of matching length). -/
noncomputable def peak_period (ps : PowerSpectrum) : ℝ :=
  (((ps.period.zip ps.power).filter
      (fun q => decide (q.2 = npMax ps.power))).headD (0, 0)).1

/-- Phase folding as in `NGTSExplorer.plot_phase`:
`phase = ((t - epoch) / period) % 1`, with numpy float `% 1` being the
fractional part. -/
noncomputable def foldPhase (t period epoch : ℝ) : ℝ :=
  Int.fract ((t - epoch) / period)

/-- Zip four parallel lists into one list of quadruples. -/
def zip4 {α β γ δ : Type} (a : List α) (b : List β) (c : List γ) (d : List δ) :
    List (α × β × γ × δ) :=
  a.zip (b.zip (c.zip d))

open Classical in
/-- Comparison on the first (key) component, as used by the argsort-style
reorderings of the source. -/
noncomputable def leFst {β : Type} (q r : ℝ × β) : Bool := decide (q.1 ≤ r.1)

open Classical in
/-- The data transformation of `NGTSExplorer.plot_phase` (the part before
plotting): compute phases, reorder all four parallel sequences by ascending
phase (numpy `argsort`; its tie order is unspecified, modelled by a merge
sort), and when `double_plot` is set append a copy with phases shifted by
+1.  When `mjd` is false the epoch is first shifted by -2400000.5. -/
noncomputable def plot_phase (d : FileData) (period epoch : ℝ)
    (mjd double_plot : Bool) : FileData :=
  let e := if mjd then epoch else epoch - 2400000.5
  let phase := d.mjd.map (fun t => foldPhase t period e)
  let sortedQ := (zip4 phase d.flux d.fluxerr d.airmass).mergeSort leFst
  let base : FileData :=
    ⟨sortedQ.map (fun q => q.1), sortedQ.map (fun q => q.2.1),
     sortedQ.map (fun q => q.2.2.1), sortedQ.map (fun q => q.2.2.2)⟩
  if double_plot then
    ⟨base.mjd ++ base.mjd.map (fun t => t + 1), base.flux ++ base.flux,
     base.fluxerr ++ base.fluxerr, base.airmass ++ base.airmass⟩
  else base

open Classical in
/-- Source `extract_data`, with the FITS reads and the database replaced by
their results: the parallel columns `mjd`, `image_id`, `flux`, `fluxerr`
and the airmass lookup `am` (the `headers` table).  All four columns are
reordered by `np.argsort(mjd)` (modelled by a merge sort) and the airmass
is fetched for the sorted image ids, preserving their order. -/
noncomputable def extract_data (mjd : List ℝ) (image_id : List ℤ)
    (flux fluxerr : List ℝ) (am : ℤ → ℝ) : FileData :=
  let sortedQ := (zip4 mjd image_id flux fluxerr).mergeSort leFst
  ⟨sortedQ.map (fun q => q.1), sortedQ.map (fun q => q.2.2.1),
   sortedQ.map (fun q => q.2.2.2), (sortedQ.map (fun q => q.2.1)).map am⟩

/-- Source `NGTSExplorer.savefig` control flow: error when no figure is
shown, error when no object was selected (`name` or `obclass` unset),
otherwise delegate to the actual save.  The returned `Except` carries the
raised message; `ok` means the save is reached. -/
def NGTSExplorer_savefig (figshown : Bool) (name obclass : Option String) :
    Except String Unit :=
  if figshown = false then
    Except.error "Please show the plot window with #plot"
  else if name = none ∨ obclass = none then
    Except.error "Please either use #savefig_index or set the object index\n            using #set_object before calling this method"
  else Except.ok ()

/-- C8: For every time value t, period p > 0 and epoch e, the phase-fold
function gives identical phase values at t and at t + p:
`fold(t + p, p, e) = fold(t, p, e)` where `fold(t, p, e) = ((t - e)/p) mod 1`. -/
theorem foldPhase_periodic (t p e : ℝ) (hp : 0 < p) :
    foldPhase (t + p) p e = foldPhase t p e := by
  unfold foldPhase
  have hp0 : p ≠ 0 := ne_of_gt hp
  have h : (t + p - e) / p = (t - e) / p + 1 := by
    field_simp
    ring
  rw [h, Int.fract_add_one]

/-- Witness for C8 at t = 0, p = 1, e = 0. -/
theorem foldPhase_periodic_witness :
    (0 : ℝ) < 1 ∧ foldPhase (0 + 1) 1 0 = foldPhase 0 1 0 :=
  ⟨by norm_num, foldPhase_periodic 0 1 0 (by norm_num)⟩

/-- C10: `detrend` passes the time (mjd) and airmass sequences through
unchanged; only flux (replaced by the detrended magnitudes) and fluxerr
(replaced by `1.08 * fluxerr / flux`) differ from the input. -/
theorem detrend_frame (d : FileData) :
    (detrend d).mjd = d.mjd ∧ (detrend d).airmass = d.airmass ∧
    (detrend d).fluxerr = List.zipWith (fun e f => 1.08 * e / f) d.fluxerr d.flux ∧
    (detrend d).flux = correct_for_airmass d.flux d.fluxerr d.airmass :=
  ⟨rfl, rfl, rfl, rfl⟩

/-- C9: `NGTSExplorer.savefig` fails in exactly the two missing-state
situations — no figure shown, or no object selected (name or class unset) —
with the source's instructive messages, and otherwise reaches the save. -/
theorem savefig_missing_state :
    ∀ (f : Bool) (n o : Option String),
      ((∃ m, NGTSExplorer_savefig f n o = Except.error m) ↔
        (f = false ∨ n = none ∨ o = none)) ∧
      NGTSExplorer_savefig false n o =
        Except.error "Please show the plot window with #plot" ∧
      NGTSExplorer_savefig true none o =
        Except.error "Please either use #savefig_index or set the object index\n            using #set_object before calling this method" ∧
      NGTSExplorer_savefig true n none =
        Except.error "Please either use #savefig_index or set the object index\n            using #set_object before calling this method" ∧
      (∀ a b : String, NGTSExplorer_savefig true (some a) (some b) = Except.ok ()) := by
  intro f n o
  refine ⟨⟨?_, ?_⟩, ?_, ?_, ?_, ?_⟩
  · intro ⟨m, hm⟩
    by_contra hc
    push_neg at hc
    obtain ⟨hf, hn, ho⟩ := hc
    simp only [NGTSExplorer_savefig, hf, hn, ho] at hm
    simp at hm
  · intro h
    rcases h with h | h | h
    · exact ⟨"Please show the plot window with #plot",
        by simp [NGTSExplorer_savefig, h]⟩
    · cases f with
      | false => exact ⟨"Please show the plot window with #plot",
          by simp [NGTSExplorer_savefig]⟩
      | true => exact ⟨"Please either use #savefig_index or set the object index\n            using #set_object before calling this method",
          by simp [NGTSExplorer_savefig, h]⟩
    · cases f with
      | false => exact ⟨"Please show the plot window with #plot",
          by simp [NGTSExplorer_savefig]⟩
      | true => exact ⟨"Please either use #savefig_index or set the object index\n            using #set_object before calling this method",
          by simp [NGTSExplorer_savefig, h]⟩
  · simp [NGTSExplorer_savefig]
  · simp [NGTSExplorer_savefig]
  · simp [NGTSExplorer_savefig]
  · intro a b
    simp [NGTSExplorer_savefig]

/-- The start point `a` is a member of `linspace a b n` for `n ≥ 1`. -/
theorem linspace_mem_left (a b : ℝ) {n : ℕ} (hn : 1 ≤ n) : a ∈ linspace a b n := by
  unfold linspace
  refine List.mem_map.2 ⟨0, List.mem_range.2 (by omega), ?_⟩
  norm_num

/-- The end point `b` is a member of `linspace a b n` for `n ≥ 2`. -/
theorem linspace_mem_right (a b : ℝ) {n : ℕ} (hn : 2 ≤ n) : b ∈ linspace a b n := by
  unfold linspace
  refine List.mem_map.2 ⟨n - 1, List.mem_range.2 (by omega), ?_⟩
  have hcast : ((n - 1 : ℕ) : ℝ) = (n : ℝ) - 1 := by
    have h1 : 1 ≤ n := by omega
    rw [Nat.cast_sub h1, Nat.cast_one]
  have hm : ((n : ℝ) - 1) ≠ 0 := by
    have : (2 : ℝ) ≤ (n : ℝ) := by exact_mod_cast hn
    linarith
  rw [hcast, mul_comm, div_mul_cancel₀ _ hm]
  ring

/-- Every point of `linspace a b n` is positive when both endpoints are
positive (each point is a convex combination of the endpoints). -/
theorem linspace_pos {a b : ℝ} (ha : 0 < a) (hb : 0 < b) (n : ℕ) :
    ∀ p ∈ linspace a b n, 0 < p := by
  intro p hp
  unfold linspace at hp
  obtain ⟨i, hi', hEq⟩ := List.mem_map.1 hp
  have hi : i < n := List.mem_range.1 hi'
  subst hEq
  rcases Nat.lt_or_ge n 2 with h2 | h2
  · have hi0 : i = 0 := by omega
    subst hi0
    simpa using ha
  · have hm : (0 : ℝ) < (n : ℝ) - 1 := by
      have : (2 : ℝ) ≤ (n : ℝ) := by exact_mod_cast h2
      linarith
    have hi' : (i : ℝ) ≤ (n : ℝ) - 1 := by
      have h4 : (i : ℝ) + 1 ≤ (n : ℝ) := by exact_mod_cast hi
      linarith
    have key : a + (i : ℝ) * ((b - a) / ((n : ℝ) - 1)) =
        (a * (((n : ℝ) - 1) - (i : ℝ)) + b * (i : ℝ)) / ((n : ℝ) - 1) := by
      field_simp
      ring
    rw [key]
    apply div_pos _ hm
    rcases Nat.eq_zero_or_pos i with h0 | h0
    · subst h0
      simpa using mul_pos ha hm
    · have hi0 : (0 : ℝ) < (i : ℝ) := by exact_mod_cast h0
      have t1 : 0 ≤ a * (((n : ℝ) - 1) - (i : ℝ)) := mul_nonneg ha.le (by linarith)
      have t2 : 0 < b * (i : ℝ) := mul_pos hb hi0
      linarith

/-- Counterexample to C2: with `min_period = 2 > max_period = 1` (and the
default `n = 250`) the period search does not fail — every grid point lies
in `[1, 2]`, so the positivity assertion passes even though
`max_period ≤ min_period`. -/
theorem compute_power_series_no_order_check :
    (1 : ℝ) ≤ 2 ∧ compute_power_series ⟨[], [], [], []⟩ 2 1 250 ≠ none := by
  refine ⟨by norm_num, ?_⟩
  have hpos : ∀ p ∈ linspace 2 1 250, 0 < p := by
    intro p hp
    unfold linspace at hp
    obtain ⟨i, hi', hEq⟩ := List.mem_map.1 hp
    have hi : i < 250 := List.mem_range.1 hi'
    subst hEq
    have h4 : (i : ℝ) ≤ 249 := by
      have : (i : ℝ) + 1 ≤ 250 := by exact_mod_cast hi
      linarith
    have h0 : (0 : ℝ) ≤ (i : ℝ) := Nat.cast_nonneg i
    push_cast
    nlinarith [h4, h0]
  simp only [compute_power_series, if_pos hpos]
  exact Option.some_ne_none _

/-- Amended C2: for `n ≥ 2` the period search fails (the positivity
assertion on the period grid raises) if and only if one of the two
endpoints is nonpositive; in particular it requires `min_period > 0` and
`max_period > 0`, but it does not require `max_period > min_period`. -/
theorem compute_power_series_guard (d : FileData) (minp maxp : ℝ) (n : ℕ)
    (hn : 2 ≤ n) :
    compute_power_series d minp maxp n = none ↔ ¬ (0 < minp ∧ 0 < maxp) := by
  by_cases h : ∀ p ∈ linspace minp maxp n, 0 < p
  · simp only [compute_power_series, if_pos h]
    constructor
    · intro hc
      exact absurd hc (Option.some_ne_none _)
    · intro hc
      exfalso
      apply hc
      exact ⟨h minp (linspace_mem_left minp maxp (by omega)),
             h maxp (linspace_mem_right minp maxp hn)⟩
  · simp only [compute_power_series, if_neg h]
    constructor
    · intro _ hc
      exact h (linspace_pos hc.1 hc.2 n)
    · intro _
      trivial

/-- Witness for the amended C2 at a failing input (`min_period = -1`). -/
theorem compute_power_series_guard_witness :
    2 ≤ 2 ∧ (compute_power_series ⟨[], [], [], []⟩ (-1) 1 2 = none ↔
      ¬ ((0 : ℝ) < -1 ∧ (0 : ℝ) < 1)) :=
  ⟨le_refl 2, compute_power_series_guard ⟨[], [], [], []⟩ (-1) 1 2 (le_refl 2)⟩

/-- Folding `max` over a list either keeps the seed or lands in the list. -/
theorem foldl_max_mem (a : ℝ) (l : List ℝ) :
    l.foldl max a = a ∨ l.foldl max a ∈ l := by
  induction l generalizing a with
  | nil => exact Or.inl rfl
  | cons b t ih =>
    simp only [List.foldl_cons]
    rcases ih (max a b) with h | h
    · rw [h]
      rcases max_choice a b with hm | hm
      · exact Or.inl hm
      · refine Or.inr ?_
        rw [hm]
        exact List.mem_cons_self b t
    · exact Or.inr (List.mem_cons_of_mem b h)

/-- Folding `max` bounds the seed and every list element from above. -/
theorem le_foldl_max (a : ℝ) (l : List ℝ) :
    a ≤ l.foldl max a ∧ ∀ x ∈ l, x ≤ l.foldl max a := by
  induction l generalizing a with
  | nil => exact ⟨le_refl a, by simp⟩
  | cons b t ih =>
    obtain ⟨h1, h2⟩ := ih (max a b)
    simp only [List.foldl_cons]
    refine ⟨le_trans (le_max_left a b) h1, ?_⟩
    intro x hx
    rcases List.mem_cons.1 hx with rfl | hx'
    · exact le_trans (le_max_right a x) h1
    · exact h2 x hx'

/-- The numpy maximum of a nonempty array is attained. -/
theorem npMax_mem {l : List ℝ} (h : l ≠ []) : npMax l ∈ l := by
  cases l with
  | nil => exact absurd rfl h
  | cons a t =>
    show t.foldl max a ∈ a :: t
    rcases foldl_max_mem a t with h1 | h1
    · rw [h1]
      exact List.mem_cons_self a t
    · exact List.mem_cons_of_mem a h1

/-- Every element is bounded by the numpy maximum. -/
theorem le_npMax {l : List ℝ} : ∀ x ∈ l, x ≤ npMax l := by
  cases l with
  | nil => intro x hx; exact absurd hx (List.not_mem_nil x)
  | cons a t =>
    intro x hx
    show x ≤ t.foldl max a
    rcases List.mem_cons.1 hx with rfl | hx'
    · exact (le_foldl_max x t).1
    · exact (le_foldl_max a t).2 x hx'

/-- Zipping keeps a sorted first component pairwise-sorted on `Prod.fst`. -/
theorem pairwise_fst_zip (xs : List ℝ) : ∀ (ys : List ℝ),
    xs.Pairwise (· ≤ ·) →
    (xs.zip ys).Pairwise (fun p q : ℝ × ℝ => p.1 ≤ q.1) := by
  induction xs with
  | nil => intro ys _; simp
  | cons x xt ih =>
    intro ys h
    cases ys with
    | nil => simp
    | cons y yt =>
      rw [List.pairwise_cons] at h
      rw [List.zip_cons_cons]
      refine List.Pairwise.cons ?_ (ih yt h.2)
      intro q hq
      obtain ⟨q1, q2⟩ := q
      exact h.1 q1 (List.of_mem_zip hq).1

/-- C3: for a `PowerSpectrum` with matching lengths, nonempty power and
ascending periods, `peak_period` is a candidate period attaining the
maximum power, and it is the least (hence first, in ascending period
order) among all candidates attaining that maximum. -/
theorem peak_period_first_max (ps : PowerSpectrum)
    (hlen : ps.period.length = ps.power.length)
    (hne : ps.power ≠ [])
    (hsort : ps.period.Sorted (· ≤ ·)) :
    (∃ q ∈ ps.period.zip ps.power,
        q.1 = peak_period ps ∧ q.2 = npMax ps.power) ∧
    (∀ q ∈ ps.period.zip ps.power,
        q.2 = npMax ps.power → peak_period ps ≤ q.1) := by
  have hM : npMax ps.power ∈ ps.power := npMax_mem hne
  obtain ⟨i, hilt, hig⟩ := List.mem_iff_getElem.1 hM
  have hizip : i < (ps.period.zip ps.power).length := by
    rw [List.length_zip, hlen]
    omega
  have hmem : (ps.period.zip ps.power)[i] ∈ ps.period.zip ps.power :=
    List.getElem_mem hizip
  have hiper : i < ps.period.length := by
    rw [hlen]
    omega
  have hLi : (ps.period.zip ps.power)[i] = (ps.period[i], ps.power[i]) :=
    List.getElem_zip
  unfold peak_period
  have hFne : (ps.period.zip ps.power).filter
      (fun q => decide (q.2 = npMax ps.power)) ≠ [] := by
    intro h0
    have hnp := List.filter_eq_nil_iff.1 h0 _ hmem
    apply hnp
    rw [hLi]
    simp [hig]
  obtain ⟨f, F', hF⟩ := List.exists_cons_of_ne_nil hFne
  have hfF : f ∈ (ps.period.zip ps.power).filter
      (fun q => decide (q.2 = npMax ps.power)) := by
    rw [hF]; exact List.mem_cons_self f F'
  have hfL := List.mem_filter.1 hfF
  have hf2 : f.2 = npMax ps.power := of_decide_eq_true hfL.2
  have hpeak : (((ps.period.zip ps.power).filter
      (fun q => decide (q.2 = npMax ps.power))).headD ((0 : ℝ), (0 : ℝ))).1 = f.1 := by
    rw [hF]
    rfl
  rw [hpeak]
  have hLp : (ps.period.zip ps.power).Pairwise (fun p q : ℝ × ℝ => p.1 ≤ q.1) :=
    pairwise_fst_zip ps.period ps.power hsort
  have hFp : ((ps.period.zip ps.power).filter
      (fun q => decide (q.2 = npMax ps.power))).Pairwise
      (fun p q : ℝ × ℝ => p.1 ≤ q.1) :=
    List.Pairwise.sublist (List.filter_sublist (ps.period.zip ps.power)) hLp
  rw [hF, List.pairwise_cons] at hFp
  constructor
  · exact ⟨f, hfL.1, rfl, hf2⟩
  · intro q hq hq2
    have hqF : q ∈ (ps.period.zip ps.power).filter
        (fun q => decide (q.2 = npMax ps.power)) :=
      List.mem_filter.2 ⟨hq, by simp [hq2]⟩
    rw [hF] at hqF
    rcases List.mem_cons.1 hqF with rfl | hq'
    · exact le_refl _
    · exact hFp.1 q hq'

/-- Witness for C3 on the spectrum `period = [1, 2, 3]`, `power = [5, 7, 7]`. -/
theorem peak_period_first_max_witness :
    (([1, 2, 3] : List ℝ).length = ([5, 7, 7] : List ℝ).length ∧
     ([5, 7, 7] : List ℝ) ≠ [] ∧ ([1, 2, 3] : List ℝ).Sorted (· ≤ ·)) ∧
    ((∃ q ∈ (PowerSpectrum.mk [1, 2, 3] [5, 7, 7]).period.zip
          (PowerSpectrum.mk [1, 2, 3] [5, 7, 7]).power,
        q.1 = peak_period (PowerSpectrum.mk [1, 2, 3] [5, 7, 7]) ∧
        q.2 = npMax (PowerSpectrum.mk [1, 2, 3] [5, 7, 7]).power) ∧
     (∀ q ∈ (PowerSpectrum.mk [1, 2, 3] [5, 7, 7]).period.zip
          (PowerSpectrum.mk [1, 2, 3] [5, 7, 7]).power,
        q.2 = npMax (PowerSpectrum.mk [1, 2, 3] [5, 7, 7]).power →
        peak_period (PowerSpectrum.mk [1, 2, 3] [5, 7, 7]) ≤ q.1)) :=
  ⟨⟨by simp, by simp, by simp [List.sorted_cons]; norm_num⟩,
   peak_period_first_max (PowerSpectrum.mk [1, 2, 3] [5, 7, 7]) (by simp) (by simp)
     (by simp [List.sorted_cons]; norm_num)⟩

/-- Merge-sorting by `leFst` yields a list pairwise-sorted on the key. -/
theorem mergeSort_leFst_sorted {β : Type} (L : List (ℝ × β)) :
    (L.mergeSort leFst).Pairwise (fun q r : ℝ × β => q.1 ≤ r.1) := by
  have htrans : ∀ (a b c : ℝ × β), leFst a b = true → leFst b c = true →
      leFst a c = true := by
    intro a b c hab hbc
    unfold leFst at hab hbc ⊢
    simp only [decide_eq_true_eq] at hab hbc ⊢
    exact le_trans hab hbc
  have htotal : ∀ (a b : ℝ × β), (leFst a b || leFst b a) = true := by
    intro a b
    unfold leFst
    simp only [Bool.or_eq_true, decide_eq_true_eq]
    exact le_total a.1 b.1
  have h := List.sorted_mergeSort htrans htotal L
  exact h.imp (fun hab => by
    unfold leFst at hab
    exact of_decide_eq_true hab)

/-- The length of a four-way zip is the minimum of the four lengths. -/
theorem zip4_length {α β γ δ : Type} (a : List α) (b : List β) (c : List γ)
    (d : List δ) :
    (zip4 a b c d).length = min a.length (min b.length (min c.length d.length)) := by
  simp [zip4, List.length_zip]

/-- All four sequences of a `FileData` have the given common length. -/
def FourLengthsEq (out : FileData) (n : ℕ) : Prop :=
  out.mjd.length = n ∧ out.flux.length = n ∧
  out.fluxerr.length = n ∧ out.airmass.length = n

/-- The phase-fold reordering property: one sorted permutation `S` of the
quadruples (phase, flux, fluxerr, airmass) — with phase computed by
`foldPhase` — from which all four output sequences of `plot_phase` (fold
only, no duplication) are read off positionally, plus the duplication
relation for `double_plot = true`: phases shifted by +1 appended, the
other three sequences repeated unchanged. -/
def PhaseFoldSpec (d : FileData) (p e : ℝ) : Prop :=
  ∃ S : List (ℝ × ℝ × ℝ × ℝ),
    S.Perm (zip4 (d.mjd.map (fun t => foldPhase t p e)) d.flux d.fluxerr d.airmass) ∧
    S.Pairwise (fun q r => q.1 ≤ r.1) ∧
    plot_phase d p e true false =
      FileData.mk (S.map (fun q => q.1)) (S.map (fun q => q.2.1))
        (S.map (fun q => q.2.2.1)) (S.map (fun q => q.2.2.2)) ∧
    plot_phase d p e true true =
      FileData.mk
        ((plot_phase d p e true false).mjd ++
          (plot_phase d p e true false).mjd.map (fun t => t + 1))
        ((plot_phase d p e true false).flux ++ (plot_phase d p e true false).flux)
        ((plot_phase d p e true false).fluxerr ++ (plot_phase d p e true false).fluxerr)
        ((plot_phase d p e true false).airmass ++ (plot_phase d p e true false).airmass)

/-- C4: for every light curve, period `p > 0` and epoch `e`, phase folding
computes `phase = ((t - e)/p) mod 1` per time point, reorders all four
parallel sequences by ascending phase through one permutation, and with
the duplication option appends a copy with phases shifted by +1 and the
other sequences repeated unchanged. -/
theorem plot_phase_folds_and_sorts (d : FileData) (p e : ℝ) (hp : 0 < p) :
    PhaseFoldSpec d p e := by
  refine ⟨(zip4 (d.mjd.map (fun t => foldPhase t p e)) d.flux d.fluxerr
      d.airmass).mergeSort leFst,
    List.mergeSort_perm _ _, mergeSort_leFst_sorted _, rfl, rfl⟩

/-- Witness for C4 on a one-point light curve with `p = 1`, `e = 0`. -/
theorem plot_phase_folds_and_sorts_witness :
    (0 : ℝ) < 1 ∧ PhaseFoldSpec (FileData.mk [0] [1] [1] [1]) 1 0 :=
  ⟨by norm_num, plot_phase_folds_and_sorts (FileData.mk [0] [1] [1] [1]) 1 0
    (by norm_num)⟩

/-- The `extract_data` reordering property: one sorted permutation `S` of
the quadruples (mjd, image id, flux, fluxerr) from which the output mjd,
flux and fluxerr are read off positionally, and whose image-id component
(in the sorted order) drives the airmass lookup. -/
def ExtractReorderSpec (mjd : List ℝ) (image_id : List ℤ)
    (flux fluxerr : List ℝ) (am : ℤ → ℝ) : Prop :=
  ∃ S : List (ℝ × ℤ × ℝ × ℝ),
    S.Perm (zip4 mjd image_id flux fluxerr) ∧
    S.Pairwise (fun q r => q.1 ≤ r.1) ∧
    extract_data mjd image_id flux fluxerr am =
      FileData.mk (S.map (fun q => q.1)) (S.map (fun q => q.2.2.1))
        (S.map (fun q => q.2.2.2)) ((S.map (fun q => q.2.1)).map am)

/-- The phase-sort reordering property of `plot_phase` without
duplication: one sorted permutation applied to all four sequences. -/
def PhaseReorderSpec (d : FileData) (p e : ℝ) : Prop :=
  ∃ S : List (ℝ × ℝ × ℝ × ℝ),
    S.Perm (zip4 (d.mjd.map (fun t => foldPhase t p e)) d.flux d.fluxerr d.airmass) ∧
    S.Pairwise (fun q r => q.1 ≤ r.1) ∧
    plot_phase d p e true false =
      FileData.mk (S.map (fun q => q.1)) (S.map (fun q => q.2.1))
        (S.map (fun q => q.2.2.1)) (S.map (fun q => q.2.2.2))

/-- C7: both reorderings (sort by time in `extract_data`, sort by phase in
`plot_phase`) apply one and the same permutation to all parallel
sequences, so co-indexed values stay co-indexed, and for equal-length
inputs all four output sequences keep the common input length. -/
theorem reorder_same_permutation :
    (∀ (mjd : List ℝ) (image_id : List ℤ) (flux fluxerr : List ℝ) (am : ℤ → ℝ),
      mjd.length = image_id.length → mjd.length = flux.length →
      mjd.length = fluxerr.length →
      ExtractReorderSpec mjd image_id flux fluxerr am ∧
      FourLengthsEq (extract_data mjd image_id flux fluxerr am) mjd.length) ∧
    (∀ (d : FileData) (p e : ℝ),
      d.mjd.length = d.flux.length → d.mjd.length = d.fluxerr.length →
      d.mjd.length = d.airmass.length →
      PhaseReorderSpec d p e ∧
      FourLengthsEq (plot_phase d p e true false) d.mjd.length) := by
  constructor
  · intro mjd image_id flux fluxerr am h1 h2 h3
    have hS : ((zip4 mjd image_id flux fluxerr).mergeSort leFst).length =
        (zip4 mjd image_id flux fluxerr).length :=
      (List.mergeSort_perm _ _).length_eq
    have hz : (zip4 mjd image_id flux fluxerr).length = mjd.length := by
      rw [zip4_length]
      omega
    refine ⟨⟨(zip4 mjd image_id flux fluxerr).mergeSort leFst,
      List.mergeSort_perm _ _, mergeSort_leFst_sorted _, rfl⟩, ?_, ?_, ?_, ?_⟩ <;>
      simp [extract_data, List.length_map, hS, hz]
  · intro d p e h1 h2 h3
    have hS : ((zip4 (d.mjd.map (fun t => foldPhase t p e)) d.flux d.fluxerr
        d.airmass).mergeSort leFst).length =
        (zip4 (d.mjd.map (fun t => foldPhase t p e)) d.flux d.fluxerr
          d.airmass).length :=
      (List.mergeSort_perm _ _).length_eq
    have hz : (zip4 (d.mjd.map (fun t => foldPhase t p e)) d.flux d.fluxerr
        d.airmass).length = d.mjd.length := by
      rw [zip4_length]
      simp only [List.length_map]
      omega
    refine ⟨⟨(zip4 (d.mjd.map (fun t => foldPhase t p e)) d.flux d.fluxerr
        d.airmass).mergeSort leFst,
      List.mergeSort_perm _ _, mergeSort_leFst_sorted _, rfl⟩, ?_, ?_, ?_, ?_⟩ <;>
      simp [plot_phase, List.length_map, hS, hz]

/-- Witness for C7 on concrete two-point inputs. -/
theorem reorder_same_permutation_witness :
    (ExtractReorderSpec [1, 0] [5, 6] [2, 3] [4, 7] (fun _ => 0) ∧
     FourLengthsEq (extract_data [1, 0] [5, 6] [2, 3] [4, 7] (fun _ => 0))
       ([1, 0] : List ℝ).length) ∧
    (PhaseReorderSpec (FileData.mk [0, 1] [2, 3] [4, 5] [6, 7]) 1 0 ∧
     FourLengthsEq (plot_phase (FileData.mk [0, 1] [2, 3] [4, 5] [6, 7]) 1 0
       true false) (FileData.mk [0, 1] [2, 3] [4, 5] [6, 7]).mjd.length) :=
  ⟨reorder_same_permutation.1 [1, 0] [5, 6] [2, 3] [4, 7] (fun _ => 0)
     (by simp) (by simp) (by simp),
   reorder_same_permutation.2 (FileData.mk [0, 1] [2, 3] [4, 5] [6, 7]) 1 0
     (by simp) (by simp) (by simp)⟩

/-- Element `i` of `linspace a b n` is `a + i * (b - a)/(n - 1)`. -/
theorem linspace_getD (a b : ℝ) (n i : ℕ) (hi : i < n) :
    (linspace a b n).getD i 0 = a + (i : ℝ) * ((b - a) / ((n : ℝ) - 1)) := by
  have hlen : i < (linspace a b n).length := by
    simpa [linspace] using hi
  rw [List.getD_eq_getElem _ _ hlen]
  simp [linspace]

/-- The structural contract of the period search on a valid range: the
result exists (no assertion failure), its period grid is exactly the `n`
linspace points spanning `[min_period, max_period]` (first point
`min_period`, last point `max_period`, constant spacing
`(max_period - min_period)/(n-1)`), and its power sequence is the
Lomb-Scargle power of the median-centred flux at the angular frequency
`2π/period` of each candidate period, in the same order. -/
def PowerSearchStructure (d : FileData) (minp maxp : ℝ) (n : ℕ) : Prop :=
  ∃ ps : PowerSpectrum,
    compute_power_series d minp maxp n = some ps ∧
    ps.period = linspace minp maxp n ∧
    ps.period.length = n ∧
    ps.period.getD 0 0 = minp ∧
    ps.period.getD (n - 1) 0 = maxp ∧
    (∀ i : ℕ, i + 1 < n →
      ps.period.getD (i + 1) 0 - ps.period.getD i 0 =
        (maxp - minp) / ((n : ℝ) - 1)) ∧
    ps.power = (ps.period.map (fun p => 2 * Real.pi / p)).map
      (lombPower d.mjd (d.flux.map (fun f => f - npMedian d.flux))) ∧
    ps.power.length = n

/-- C5: for every light curve and valid search range
(`0 < min_period < max_period`, grid size `n ≥ 2`), the period search
returns exactly `n` linearly spaced candidate periods spanning the range,
converts each period to angular frequency `2π/period`, subtracts the
median flux before computing power, and pairs each candidate period with
its power value. -/
theorem compute_power_series_structure (d : FileData) (minp maxp : ℝ) (n : ℕ)
    (hmin : 0 < minp) (hlt : minp < maxp) (hn : 2 ≤ n) :
    PowerSearchStructure d minp maxp n := by
  have hmax : 0 < maxp := lt_trans hmin hlt
  have hpos := linspace_pos hmin hmax n
  have hm : ((n : ℝ) - 1) ≠ 0 := by
    have : (2 : ℝ) ≤ (n : ℝ) := by exact_mod_cast hn
    linarith
  refine ⟨⟨linspace minp maxp n,
    lombscargle d.mjd (d.flux.map (fun f => f - npMedian d.flux))
      ((linspace minp maxp n).map (fun p => 2 * Real.pi / p))⟩,
    ?_, rfl, ?_, ?_, ?_, ?_, rfl, ?_⟩
  · simp only [compute_power_series]
    rw [if_pos hpos]
  · simp [linspace]
  · rw [linspace_getD minp maxp n 0 (by omega)]
    norm_num
  · rw [linspace_getD minp maxp n (n - 1) (by omega)]
    have hcast : ((n - 1 : ℕ) : ℝ) = (n : ℝ) - 1 := by
      have h1 : 1 ≤ n := by omega
      rw [Nat.cast_sub h1, Nat.cast_one]
    rw [hcast, mul_comm, div_mul_cancel₀ _ hm]
    ring
  · intro i hi
    rw [linspace_getD minp maxp n (i + 1) hi, linspace_getD minp maxp n i (by omega)]
    push_cast
    ring
  · simp [lombscargle, linspace]

/-- Witness for C5 at `min_period = 1`, `max_period = 2`, `n = 2`. -/
theorem compute_power_series_structure_witness :
    ((0 : ℝ) < 1 ∧ (1 : ℝ) < 2 ∧ 2 ≤ 2) ∧
    PowerSearchStructure ⟨[], [], [], []⟩ 1 2 2 :=
  ⟨⟨by norm_num, by norm_num, le_refl 2⟩,
   compute_power_series_structure ⟨[], [], [], []⟩ 1 2 2 (by norm_num)
     (by norm_num) (le_refl 2)⟩

/-- Linearity of the weighted sum over the residuals of a line:
`Σ V (y - (a x + b)) = Σ V y - a Σ V x - b Σ V` for parallel lists. -/
theorem dot_resid (V : List ℝ) : ∀ (x y : List ℝ) (a b : ℝ),
    V.length = x.length → x.length = y.length →
    dot V (List.zipWith (fun yi xi => yi - (a * xi + b)) y x) =
      dot V y - a * dot V x - b * V.sum := by
  induction V with
  | nil =>
    intro x y a b _ _
    simp [dot]
  | cons v V ih =>
    intro x y a b h1 h2
    cases x with
    | nil => simp at h1
    | cons xi xt =>
      cases y with
      | nil => simp at h2
      | cons yi yt =>
        have h1' : V.length = xt.length := by simpa using h1
        have h2' : xt.length = yt.length := by simpa using h2
        have hstep : List.zipWith (fun yi xi => yi - (a * xi + b)) (yi :: yt) (xi :: xt) =
            (yi - (a * xi + b)) :: List.zipWith (fun yi xi => yi - (a * xi + b)) yt xt := rfl
        rw [hstep]
        have hd : ∀ (u w : ℝ) (us ws : List ℝ),
            dot (u :: us) (w :: ws) = u * w + dot us ws := by
          intro u w us ws
          simp [dot]
        rw [hd, hd, hd, List.sum_cons, ih xt yt a b h1' h2']
        ring

/-- Closed form of the fitted slope. -/
theorem wlsLine_fst (W x y : List ℝ) :
    (wlsLine W x y).1 =
      (W.sum * dot (List.zipWith (fun a b => a * b) W x) y - dot W x * dot W y) /
        wlsDen W x := rfl

/-- Closed form of the fitted intercept. -/
theorem wlsLine_snd (W x y : List ℝ) :
    (wlsLine W x y).2 =
      (dot (List.zipWith (fun a b => a * b) W x) x * dot W y -
        dot W x * dot (List.zipWith (fun a b => a * b) W x) y) / wlsDen W x := rfl

/-- The weighted normal equations: when the system is nondegenerate, the
residuals of the fitted line are orthogonal (in the `W`-weighted inner
product) to the constant vector and to `x`. -/
theorem wlsLine_normal_eq (W x y : List ℝ)
    (h1 : W.length = x.length) (h2 : x.length = y.length)
    (hD : wlsDen W x ≠ 0) :
    dot W (List.zipWith
      (fun yi xi => yi - ((wlsLine W x y).1 * xi + (wlsLine W x y).2)) y x) = 0 ∧
    dot (List.zipWith (fun a b => a * b) W x) (List.zipWith
      (fun yi xi => yi - ((wlsLine W x y).1 * xi + (wlsLine W x y).2)) y x) = 0 := by
  have hVlen : (List.zipWith (fun a b => a * b) W x).length = x.length := by
    rw [List.length_zipWith, h1]
    omega
  have e1 := dot_resid W x y (wlsLine W x y).1 (wlsLine W x y).2 h1 h2
  have e2 := dot_resid (List.zipWith (fun a b => a * b) W x) x y
    (wlsLine W x y).1 (wlsLine W x y).2 hVlen h2
  have hsum : (List.zipWith (fun a b => a * b) W x).sum = dot W x := rfl
  have hDD : wlsDen W x =
      W.sum * dot (List.zipWith (fun a b => a * b) W x) x - (dot W x) ^ 2 := rfl
  have hD' : W.sum * dot (List.zipWith (fun a b => a * b) W x) x - (dot W x) ^ 2 ≠ 0 := by
    rw [← hDD]
    exact hD
  constructor
  · rw [e1, wlsLine_fst, wlsLine_snd, hDD]
    field_simp
    ring
  · rw [e2, hsum, wlsLine_fst, wlsLine_snd, hDD]
    field_simp
    ring

/-- Refitting the residuals of a weighted line against the same abscissae
with the same weights gives a zero slope: either the normal equations kill
the numerator, or the degenerate system divides by zero (where numpy
would raise instead). -/
theorem refit_slope_zero_general (W x y : List ℝ)
    (h1 : W.length = x.length) (h2 : x.length = y.length) :
    (wlsLine W x (List.zipWith
      (fun yi xi => yi - ((wlsLine W x y).1 * xi + (wlsLine W x y).2)) y x)).1 = 0 := by
  rw [wlsLine_fst]
  by_cases hD : wlsDen W x = 0
  · rw [hD, div_zero]
  · obtain ⟨e1, e2⟩ := wlsLine_normal_eq W x y h1 h2 hD
    rw [e1, e2]
    simp

/-- C6: refitting the detrended output of `correct_for_airmass` against the
same airmass values with the same weight argument (the identical
`polyfit` call, hence the identical effective weights) yields an exactly
zero slope in exact arithmetic: the fit removed all linear airmass
dependency. -/
theorem detrended_refit_zero_slope (flux fluxerr airmass : List ℝ)
    (hlen1 : flux.length = fluxerr.length)
    (hlen2 : flux.length = airmass.length)
    (hpos : ∀ f ∈ flux, 0 < f)
    (hvar : ∃ u ∈ airmass, ∃ v ∈ airmass, u ≠ v) :
    (polyfit1 airmass (correct_for_airmass flux fluxerr airmass)
      ((imag_err_of flux fluxerr).map (fun s => 1 / s ^ 2))).1 = 0 := by
  have hW : (((imag_err_of flux fluxerr).map (fun s => 1 / s ^ 2)).map
      (fun t => t ^ 2)).length = airmass.length := by
    simp only [List.length_map, imag_err_of, List.length_zipWith]
    omega
  have hxy : airmass.length = (imag_of flux).length := by
    simp only [imag_of, List.length_map]
    omega
  exact refit_slope_zero_general
    (((imag_err_of flux fluxerr).map (fun s => 1 / s ^ 2)).map (fun t => t ^ 2))
    airmass (imag_of flux) hW hxy

/-- Witness for C6 on a two-point input with distinct airmass values. -/
theorem detrended_refit_zero_slope_witness :
    (([1, 1] : List ℝ).length = ([1, 1] : List ℝ).length ∧
     ([1, 1] : List ℝ).length = ([1, 2] : List ℝ).length ∧
     (∀ f ∈ ([1, 1] : List ℝ), 0 < f) ∧
     (∃ u ∈ ([1, 2] : List ℝ), ∃ v ∈ ([1, 2] : List ℝ), u ≠ v)) ∧
    (polyfit1 [1, 2] (correct_for_airmass [1, 1] [1, 1] [1, 2])
      ((imag_err_of [1, 1] [1, 1]).map (fun s => 1 / s ^ 2))).1 = 0 :=
  ⟨⟨rfl, rfl, by norm_num [List.forall_mem_cons],
    ⟨1, by simp, 2, by simp, by norm_num⟩⟩,
   detrended_refit_zero_slope [1, 1] [1, 1] [1, 2] rfl rfl
     (by norm_num [List.forall_mem_cons])
     ⟨1, by simp, 2, by simp, by norm_num⟩⟩

/-- The effective least-squares weights of the source's fit: the call is
`np.polyfit(..., w = 1/imag_err²)` and numpy squares `w` inside, so the
weight multiplying the squared residual is `(1/imag_err²)² = 1/imag_err⁴`. -/
noncomputable def effWeights (flux fluxerr : List ℝ) : List ℝ :=
  ((imag_err_of flux fluxerr).map (fun s => 1 / s ^ 2)).map (fun t => t ^ 2)

/-- What `detrend` actually returns: mjd and airmass unchanged, fluxerr
replaced by `1.08 * fluxerr / flux`, and flux replaced by
`mag - (a * airmass + b)` where the line `(a, b)` satisfies the weighted
normal equations — i.e. is the weighted least-squares line of magnitude
versus airmass — for the effective weights `1/mag_err⁴`. -/
def DetrendWLS (d : FileData) : Prop :=
  ∃ a b : ℝ,
    (detrend d).mjd = d.mjd ∧
    (detrend d).airmass = d.airmass ∧
    (detrend d).fluxerr = imag_err_of d.flux d.fluxerr ∧
    (detrend d).flux =
      List.zipWith (fun m xi => m - (a * xi + b)) (imag_of d.flux) d.airmass ∧
    dot (effWeights d.flux d.fluxerr) ((detrend d).flux) = 0 ∧
    dot (List.zipWith (fun a b => a * b) (effWeights d.flux d.fluxerr) d.airmass)
      ((detrend d).flux) = 0

/-- Amended C1: `detrend` computes `mag_err = 1.08 * fluxerr / flux` and
`mag = -2.5 * log10 flux`, fits the degree-1 polynomial of mag against
airmass by weighted least squares with effective per-point weight
`1/mag_err⁴` — not `1/mag_err²`, since `np.polyfit`'s `w` multiplies the
unsquared residual — and returns `mag` minus the fitted line with the
uncertainty `mag_err` unchanged.  Nondegeneracy of the weighted system is
assumed (numpy would otherwise hit a singular fit). -/
theorem detrend_weighted_least_squares (d : FileData)
    (hlen1 : d.flux.length = d.fluxerr.length)
    (hlen2 : d.flux.length = d.airmass.length)
    (hpos : ∀ f ∈ d.flux, 0 < f)
    (hD : wlsDen (effWeights d.flux d.fluxerr) d.airmass ≠ 0) :
    DetrendWLS d := by
  have h1 : (effWeights d.flux d.fluxerr).length = d.airmass.length := by
    simp only [effWeights, List.length_map, imag_err_of, List.length_zipWith]
    omega
  have h2 : d.airmass.length = (imag_of d.flux).length := by
    simp only [imag_of, List.length_map]
    omega
  obtain ⟨e1, e2⟩ := wlsLine_normal_eq (effWeights d.flux d.fluxerr) d.airmass
    (imag_of d.flux) h1 h2 hD
  exact ⟨(wlsLine (effWeights d.flux d.fluxerr) d.airmass (imag_of d.flux)).1,
    (wlsLine (effWeights d.flux d.fluxerr) d.airmass (imag_of d.flux)).2,
    rfl, rfl, rfl, rfl, e1, e2⟩

/-- Witness for the amended C1 on the three-point input
`flux = [1, 100, 10]`, `mag_err = [1, 1, 2]`, `airmass = [1, 2, 3]`. -/
theorem detrend_weighted_least_squares_witness :
    ((∀ f ∈ ([1, 100, 10] : List ℝ), 0 < f) ∧
     wlsDen (effWeights [1, 100, 10] [25/27, 2500/27, 500/27]) [1, 2, 3] ≠ 0) ∧
    DetrendWLS (FileData.mk [0, 1, 2] [1, 100, 10] [25/27, 2500/27, 500/27]
      [1, 2, 3]) :=
  ⟨⟨by norm_num [List.forall_mem_cons],
    by norm_num [wlsDen, effWeights, imag_err_of, dot]⟩,
   detrend_weighted_least_squares
     (FileData.mk [0, 1, 2] [1, 100, 10] [25/27, 2500/27, 500/27] [1, 2, 3])
     rfl rfl (by norm_num [List.forall_mem_cons])
     (by norm_num [wlsDen, effWeights, imag_err_of, dot])⟩

/-- Counterexample to C1 as stated: on `flux = [1, 100, 10]` (all
positive), `fluxerr = [25/27, 2500/27, 500/27]` (so `mag_err = [1, 1, 2]`)
and `airmass = [1, 2, 3]`, the detrended flux returned by the code is
`[5/14, -5/7, 40/7]`, while subtracting the weighted least-squares line
with per-point weight `1/mag_err²` (the spec's words, modelled by
`correct_for_airmass_specWeights`) would give `[5/6, -5/3, 10/3]`: the
two disagree, because `np.polyfit` squares its weight argument. -/
theorem detrend_weight_counterexample :
    ((0 : ℝ) < 1 ∧ (0 : ℝ) < 100 ∧ (0 : ℝ) < 10) ∧
    (detrend (FileData.mk [0, 1, 2] [1, 100, 10] [25/27, 2500/27, 500/27]
      [1, 2, 3])).flux = [5/14, -5/7, 40/7] ∧
    correct_for_airmass_specWeights [1, 100, 10] [25/27, 2500/27, 500/27]
      [1, 2, 3] = [5/6, -5/3, 10/3] ∧
    (detrend (FileData.mk [0, 1, 2] [1, 100, 10] [25/27, 2500/27, 500/27]
      [1, 2, 3])).flux ≠
      correct_for_airmass_specWeights [1, 100, 10] [25/27, 2500/27, 500/27]
        [1, 2, 3] := by
  have h10 : Real.logb 10 10 = 1 := Real.logb_self_eq_one (by norm_num)
  have h100 : Real.logb 10 100 = 2 := by
    rw [show (100 : ℝ) = 10 ^ (2 : ℕ) by norm_num, Real.logb_pow, h10]
    norm_num
  have himag : imag_of [1, 100, 10] = [0, -5, -2.5] := by
    norm_num [imag_of, Real.logb_one, h10, h100]
  have hW : ((imag_err_of [1, 100, 10] [25/27, 2500/27, 500/27]).map
      (fun s => 1 / s ^ 2)).map (fun t => t ^ 2) = [1, 1, 1/16] := by
    norm_num [imag_err_of]
  have hWA : (imag_err_of [1, 100, 10] [25/27, 2500/27, 500/27]).map
      (fun s => 1 / s ^ 2) = [1, 1, 1/4] := by
    norm_num [imag_err_of]
  have hpoly : polyfit1 [1, 2, 3] [0, -5, -2.5]
      ((imag_err_of [1, 100, 10] [25/27, 2500/27, 500/27]).map (fun s => 1 / s ^ 2)) =
      wlsLine [1, 1, 1/16] [1, 2, 3] [0, -5, -2.5] := by
    unfold polyfit1
    rw [hW]
  have hA : (wlsLine [1, 1, 1/16] [1, 2, 3] [0, -5, -2.5]).1 = -55/14 := by
    rw [wlsLine_fst]
    norm_num [dot, wlsDen]
  have hB : (wlsLine [1, 1, 1/16] [1, 2, 3] [0, -5, -2.5]).2 = 25/7 := by
    rw [wlsLine_snd]
    norm_num [dot, wlsDen]
  have hA' : (wlsLine [1, 1, 1/4] [1, 2, 3] [0, -5, -2.5]).1 = -5/2 := by
    rw [wlsLine_fst]
    norm_num [dot, wlsDen]
  have hB' : (wlsLine [1, 1, 1/4] [1, 2, 3] [0, -5, -2.5]).2 = 5/3 := by
    rw [wlsLine_snd]
    norm_num [dot, wlsDen]
  have hcode : correct_for_airmass [1, 100, 10] [25/27, 2500/27, 500/27] [1, 2, 3] =
      [5/14, -5/7, 40/7] := by
    show List.zipWith (fun m x => m -
        ((polyfit1 [1, 2, 3] (imag_of [1, 100, 10])
          ((imag_err_of [1, 100, 10] [25/27, 2500/27, 500/27]).map
            (fun s => 1 / s ^ 2))).1 * x +
         (polyfit1 [1, 2, 3] (imag_of [1, 100, 10])
          ((imag_err_of [1, 100, 10] [25/27, 2500/27, 500/27]).map
            (fun s => 1 / s ^ 2))).2))
      (imag_of [1, 100, 10]) [1, 2, 3] = [5/14, -5/7, 40/7]
    simp only [himag]
    simp only [hpoly]
    simp only [hA, hB]
    norm_num
  have hspec : correct_for_airmass_specWeights [1, 100, 10]
      [25/27, 2500/27, 500/27] [1, 2, 3] = [5/6, -5/3, 10/3] := by
    show List.zipWith (fun m x => m -
        ((wlsLine ((imag_err_of [1, 100, 10] [25/27, 2500/27, 500/27]).map
            (fun s => 1 / s ^ 2)) [1, 2, 3] (imag_of [1, 100, 10])).1 * x +
         (wlsLine ((imag_err_of [1, 100, 10] [25/27, 2500/27, 500/27]).map
            (fun s => 1 / s ^ 2)) [1, 2, 3] (imag_of [1, 100, 10])).2))
      (imag_of [1, 100, 10]) [1, 2, 3] = [5/6, -5/3, 10/3]
    simp only [himag]
    simp only [hWA]
    simp only [hA', hB']
    norm_num
  refine ⟨⟨by norm_num, by norm_num, by norm_num⟩, hcode, hspec, ?_⟩
  show correct_for_airmass [1, 100, 10] [25/27, 2500/27, 500/27] [1, 2, 3] ≠
    correct_for_airmass_specWeights [1, 100, 10] [25/27, 2500/27, 500/27] [1, 2, 3]
  rw [hcode, hspec]
  intro hEq
  rw [List.cons.injEq] at hEq
  norm_num at hEq
